import Mathlib

/-!
Shallow embedding of the fastbu distributed key-value cache (Rust sources
under src/) used to check the natural-language specification against the
code.  Pure data and the byte-level protocol logic are translated directly
from the Rust functions; effectful operations (socket reads and writes,
disk persistence) are modelled by passing the outcome of the effect as an
explicit argument, and each connection is modelled as the finite list of
bytes it delivers.  Machine integers are Nat with explicit bounds where
they matter.  The consistent-hash ring is provided by the external
hashring crate (not part of this repository); it is modelled from the
spec, see the Ring section below.
-/

namespace Fastbu

/- ### Byte-level helpers (fixed-width integers, as used by the wire codec) -/

/-- Big-endian 4-byte encoding of a u32, as produced by u32::to_be_bytes in
src/src/cluster.rs (length prefix of every frame). -/
def u32be (x : Nat) : List Nat :=
  [x / 16777216 % 256, x / 65536 % 256, x / 256 % 256, x % 256]

/-- Value of a big-endian 4-byte length prefix, as read by
u32::from_be_bytes in start_message_listener. -/
def u32beVal (b0 b1 b2 b3 : Nat) : Nat :=
  b0 * 16777216 + b1 * 65536 + b2 * 256 + b3

/-- Little-endian 2-byte encoding of a u16 (bincode fixed-int encoding). -/
def u16le (x : Nat) : List Nat :=
  [x % 256, x / 256 % 256]

/-- Little-endian 4-byte encoding of a u32 (bincode enum variant tags). -/
def u32le (x : Nat) : List Nat :=
  [x % 256, x / 256 % 256, x / 65536 % 256, x / 16777216 % 256]

/-- Little-endian 8-byte encoding of a u64 (bincode collection lengths). -/
def u64le (x : Nat) : List Nat :=
  [x % 256, x / 256 % 256, x / 65536 % 256, x / 16777216 % 256,
   x / 4294967296 % 256, x / 1099511627776 % 256,
   x / 281474976710656 % 256, x / 72057594037927936 % 256]

/-- Value of a little-endian byte list (least significant byte first). -/
def leVal : List Nat → Nat
  | [] => 0
  | b :: r => b + 256 * leVal r

/- ### UTF-8 (Rust String bytes; used by serde strings and the text protocol) -/

/-- UTF-8 encoding of one scalar value. -/
def utf8Encode (c : Char) : List Nat :=
  let cp := c.toNat
  if cp < 128 then [cp]
  else if cp < 2048 then [192 + cp / 64, 128 + cp % 64]
  else if cp < 65536 then
    [224 + cp / 4096, 128 + cp / 64 % 64, 128 + cp % 64]
  else
    [240 + cp / 262144, 128 + cp / 4096 % 64, 128 + cp / 64 % 64, 128 + cp % 64]

/-- UTF-8 bytes of a string, as Rust's str::as_bytes. -/
def strBytes (s : String) : List Nat :=
  (s.data.map utf8Encode).flatten

/-- Whether a byte is a UTF-8 continuation byte (0x80..=0xBF). -/
def isCont (b : Nat) : Bool :=
  decide (128 ≤ b ∧ b ≤ 191)

/-- Decode one UTF-8 scalar: given the first byte and the remaining bytes,
return the character and how many continuation bytes were consumed.
Follows the standard (Rust core::str) validity ranges, rejecting overlong
forms and surrogates. -/
def utf8DecodeOne (b : Nat) (rest : List Nat) : Option (Char × Nat) :=
  if b < 128 then some (Char.ofNat b, 0)
  else if 194 ≤ b ∧ b ≤ 223 then
    match rest.head? with
    | some b1 =>
      if isCont b1 then some (Char.ofNat ((b - 192) * 64 + (b1 - 128)), 1) else none
    | none => none
  else if 224 ≤ b ∧ b ≤ 239 then
    match rest.head?, rest.tail.head? with
    | some b1, some b2 =>
      let lo1 := if b = 224 then 160 else 128
      let hi1 := if b = 237 then 159 else 191
      if lo1 ≤ b1 ∧ b1 ≤ hi1 ∧ isCont b2 then
        some (Char.ofNat ((b - 224) * 4096 + (b1 - 128) * 64 + (b2 - 128)), 2)
      else none
    | _, _ => none
  else if 240 ≤ b ∧ b ≤ 244 then
    match rest.head?, rest.tail.head?, rest.tail.tail.head? with
    | some b1, some b2, some b3 =>
      let lo1 := if b = 240 then 144 else 128
      let hi1 := if b = 244 then 143 else 191
      if lo1 ≤ b1 ∧ b1 ≤ hi1 ∧ isCont b2 ∧ isCont b3 then
        some (Char.ofNat
          ((b - 240) * 262144 + (b1 - 128) * 4096 + (b2 - 128) * 64 + (b3 - 128)), 3)
      else none
    | _, _, _ => none
  else none

/-- Strict UTF-8 decoding of a byte list (fuel-indexed so that it reduces
by computation; the fuel is the length of the list). -/
def utf8DecodeAux : Nat → List Nat → Option (List Char)
  | _, [] => some []
  | 0, _ :: _ => none
  | fuel + 1, b :: rest =>
    match utf8DecodeOne b rest with
    | none => none
    | some (c, k) => (utf8DecodeAux fuel (rest.drop k)).map (c :: ·)

/-- Strict UTF-8 decoding, as String::from_utf8 / serde string decoding. -/
def utf8Decode (l : List Nat) : Option String :=
  (utf8DecodeAux l.length l).map (fun cs => String.mk cs)

/-- Lossy UTF-8 decoding: invalid sequences become U+FFFD, one byte at a
time, as String::from_utf8_lossy in the direct-fetch branch. -/
def utf8LossyAux : Nat → List Nat → List Char
  | _, [] => []
  | 0, _ :: _ => []
  | fuel + 1, b :: rest =>
    match utf8DecodeOne b rest with
    | none => Char.ofNat 65533 :: utf8LossyAux fuel rest
    | some (c, k) => c :: utf8LossyAux fuel (rest.drop k)

/-- Lossy UTF-8 decoding of a byte list into a string. -/
def utf8Lossy (l : List Nat) : String :=
  String.mk (utf8LossyAux l.length l)

/- ### Association-list maps (model of std HashMap with String keys) -/

/-- Lookup in an association list (model of HashMap::get). -/
def mapLookup {α : Type} (k : String) : List (String × α) → Option α
  | [] => none
  | p :: r => if p.1 = k then some p.2 else mapLookup k r

/-- Insert-or-replace (model of HashMap::insert).  The representation keeps
at most one entry per key. -/
def mapInsert {α : Type} (k : String) (v : α) (m : List (String × α)) :
    List (String × α) :=
  (k, v) :: m.filter (fun p => p.1 ≠ k)

/-- Remove a key (model of HashMap::remove). -/
def mapRemove {α : Type} (k : String) (m : List (String × α)) :
    List (String × α) :=
  m.filter (fun p => p.1 ≠ k)

/- ### Node (src/src/cluster.rs, struct Node) -/

/-- A node in the cluster: id, host, cluster port, API port and a
string-to-string metadata map (src/src/cluster.rs lines 42-59). -/
structure Node where
  id : String
  host : String
  port : Nat
  api_port : Nat
  metadata : List (String × String)
deriving DecidableEq, Repr

/-- Equality of two metadata maps as Rust's HashMap PartialEq: same length
and every entry of the first is bound identically in the second. -/
def metaEqb (m1 m2 : List (String × String)) : Bool :=
  m1.length == m2.length &&
  m1.all (fun p => mapLookup p.1 m2 == some p.2)

/-- The derived PartialEq of Node: componentwise on all five fields,
metadata included (Node derives PartialEq in src/src/cluster.rs line 42). -/
def nodeEqb (n1 n2 : Node) : Bool :=
  n1.id == n2.id && n1.host == n2.host && n1.port == n2.port &&
  n1.api_port == n2.api_port && metaEqb n1.metadata n2.metadata

/-- The word stream a String feeds to a std Hasher: its UTF-8 bytes
followed by the 0xff terminator (0xff never occurs in valid UTF-8). -/
def strHashInput (s : String) : List Nat :=
  strBytes s ++ [255]

/-- The stream the custom Hash impl of Node (src/src/cluster.rs lines
62-70) feeds to the hasher: id, host, port and api_port only; the
metadata map is not hashed. -/
def hashInput (n : Node) : List Nat :=
  strHashInput n.id ++ strHashInput n.host ++ u16le n.port ++ u16le n.api_port

/-- The ring position of a node under a hash builder hb: the builder's
hash of exactly the stream written by Node's Hash impl. -/
def nodeRingHash (hb : List Nat → Nat) (n : Node) : Nat :=
  hb (hashInput n)

/-- The ring position of a key: get converts the key to a String and
hashes it (src/src/cluster.rs line 680). -/
def keyRingHash (hb : List Nat → Nat) (k : String) : Nat :=
  hb (strHashInput k)

/- ### Node address parsing (Node::addr, src/src/cluster.rs lines 96-107) -/

/-- Parse a decimal IPv4 octet as std's parser does: only digits, at most
three of them, no leading zero unless the octet is exactly "0", value at
most 255. -/
def ipv4Octet (s : List Char) : Option Nat :=
  if s = [] ∨ 3 < s.length ∨ ¬ s.all Char.isDigit then none
  else if s.head? = some '0' ∧ s.length ≠ 1 then none
  else
    let v := s.foldl (fun a c => a * 10 + (c.toNat - 48)) 0
    if v ≤ 255 then some v else none

/-- Split a character list on a separator. -/
def splitOn (sep : Char) : List Char → List (List Char)
  | [] => [[]]
  | c :: r =>
    let rest := splitOn sep r
    if c = sep then [] :: rest
    else match rest with
      | [] => [[c]]
      | g :: gs => (c :: g) :: gs

/-- Parse a dotted-quad IPv4 address literal, as "host".parse does for the
IPv4 fragment of the std SocketAddr grammar.  Hostnames such as
"localhost" are not address literals and fail; the bracketed IPv6 form
never arises from the "{host}:{port}" format string used by Node::addr
(an unbracketed IPv6 host also fails to parse as a SocketAddr). -/
def ipv4Parse (s : String) : Option (Nat × Nat × Nat × Nat) :=
  match (splitOn '.' s.data).map ipv4Octet with
  | [some a, some b, some c, some d] => some (a, b, c, d)
  | _ => none

/-- Model of Node::addr (src/src/cluster.rs lines 96-100): format the host
and cluster port as "host:port" and parse it as a SocketAddr; the source
calls .expect on the result, so none models a panic. -/
def nodeAddr (n : Node) : Option ((Nat × Nat × Nat × Nat) × Nat) :=
  (ipv4Parse n.host).map (fun ip => (ip, n.port))

/-- Model of Node::api_addr (src/src/cluster.rs lines 102-107). -/
def nodeApiAddr (n : Node) : Option ((Nat × Nat × Nat × Nat) × Nat) :=
  (ipv4Parse n.host).map (fun ip => (ip, n.api_port))

/- ### Cache entries and cluster messages (src/src/cache.rs, cluster.rs) -/

/-- A cache entry holds the value string (src/src/cache.rs lines 8-11). -/
structure CacheEntry where
  value : String
deriving DecidableEq, Repr

/-- The closed set of cluster messages (src/src/cluster.rs lines 163-182). -/
inductive ClusterMessage where
  | ping
  | pong
  | fetchRequest (key : String)
  | fetchResponse (key : String) (value : Option CacheEntry)
  | keyUpdated (key : String) (value : CacheEntry)
  | keyInvalidated (key : String)
deriving DecidableEq, Repr

/- ### Local cache store and persistence (src/src/cache.rs, storage.rs) -/

/-- State of FastbuCache: the in-memory map and the disk store owned by its
Storage.  The disk store models the key-indexed blob files plus index. -/
structure CacheState where
  mem : List (String × CacheEntry)
  disk : List (String × CacheEntry)
deriving DecidableEq, Repr

/-- The empty cache of a fresh FastbuCache::new over a given disk store:
Storage::new loads the existing index but nothing is read into memory. -/
def freshCache (disk : List (String × CacheEntry)) : CacheState :=
  { mem := [], disk := disk }

/-- Model of FastbuCache::insert (src/src/cache.rs lines 40-95): the
in-memory map is always updated first; persistence to disk follows and its
outcome is the outcome passed as persistOk (disk writes are I/O).  The
returned Bool is true exactly when insert returns Ok. -/
def fastbuInsert (persistOk : Bool) (key value : String) (st : CacheState) :
    Bool × CacheState :=
  let mem := mapInsert key ⟨value⟩ st.mem
  let disk := if persistOk then mapInsert key (⟨value⟩ : CacheEntry) st.disk else st.disk
  (persistOk, { mem := mem, disk := disk })

/-- Model of FastbuCache::get (src/src/cache.rs lines 97-100): a lookup in
the in-memory map only, cloning the entry's value. -/
def fastbuGet (st : CacheState) (key : String) : Option String :=
  (mapLookup key st.mem).map (fun e => e.value)

/-- Model of Storage::load (src/src/storage.rs lines 161-175): look the key
up in the index and deserialize the entry from its blob file. -/
def storageLoad (disk : List (String × CacheEntry)) (key : String) :
    Option CacheEntry :=
  mapLookup key disk

/- ### bincode serialization (legacy config: fixed-width little-endian ints) -/

/-- bincode encoding of a String: u64 little-endian byte length, then the
UTF-8 bytes. -/
def serStr (s : String) : List Nat :=
  u64le (strBytes s).length ++ strBytes s

/-- bincode encoding of a Node, field by field in declaration order; the
metadata map is a u64 count followed by the key-value pairs
(bincode::serialize(&node) in src/src/cluster.rs). -/
def serNode (n : Node) : List Nat :=
  serStr n.id ++ serStr n.host ++ u16le n.port ++ u16le n.api_port ++
  u64le n.metadata.length ++ (n.metadata.map (fun p => serStr p.1 ++ serStr p.2)).flatten

/-- bincode encoding of an Option: a tag byte 0 or 1, then the payload. -/
def serOptEntry : Option CacheEntry → List Nat
  | none => [0]
  | some e => 1 :: serStr e.value

/-- bincode encoding of a ClusterMessage: u32 little-endian variant index,
then the variant fields in order. -/
def serMsg : ClusterMessage → List Nat
  | .ping => u32le 0
  | .pong => u32le 1
  | .fetchRequest key => u32le 2 ++ serStr key
  | .fetchResponse key value => u32le 3 ++ serStr key ++ serOptEntry value
  | .keyUpdated key value => u32le 4 ++ serStr key ++ serStr value.value
  | .keyInvalidated key => u32le 5 ++ serStr key

/-- The wire framing used by every sender (initialize, send_message, the
fetch-response task): a 4-byte big-endian length prefix followed by the
serialized payload. -/
def frame (payload : List Nat) : List Nat :=
  u32be payload.length ++ payload

/-- Take k bytes off the front of a stream, failing like read_exact when
fewer are available. -/
def readBytes (k : Nat) (l : List Nat) : Option (List Nat × List Nat) :=
  if k ≤ l.length then some (l.take k, l.drop k) else none

/-- bincode decoding of a u64 length. -/
def deserU64 (l : List Nat) : Option (Nat × List Nat) :=
  (readBytes 8 l).map (fun p => (leVal p.1, p.2))

/-- bincode decoding of a u16. -/
def deserU16 (l : List Nat) : Option (Nat × List Nat) :=
  (readBytes 2 l).map (fun p => (leVal p.1, p.2))

/-- bincode decoding of a u32 (enum variant tags). -/
def deserU32 (l : List Nat) : Option (Nat × List Nat) :=
  (readBytes 4 l).map (fun p => (leVal p.1, p.2))

/-- bincode decoding of a String: length, bytes, strict UTF-8 validation. -/
def deserStr (l : List Nat) : Option (String × List Nat) := do
  let (len, r) ← deserU64 l
  let (bs, r') ← readBytes len r
  let s ← utf8Decode bs
  some (s, r')

/-- bincode decoding of a sequence of string pairs (HashMap entries). -/
def deserPairs : Nat → List Nat → Option (List (String × String) × List Nat)
  | 0, l => some ([], l)
  | count + 1, l => do
    let (k, r) ← deserStr l
    let (v, r') ← deserStr r
    let (rest, r'') ← deserPairs count r'
    some ((k, v) :: rest, r'')

/-- bincode decoding of a Node, as the trial bincode::deserialize::<Node>
in the listener; bincode's legacy deserialize does not reject trailing
bytes, so the remainder is returned. -/
def deserNode (l : List Nat) : Option (Node × List Nat) := do
  let (id, r1) ← deserStr l
  let (host, r2) ← deserStr r1
  let (port, r3) ← deserU16 r2
  let (api, r4) ← deserU16 r3
  let (count, r5) ← deserU64 r4
  let (meta, r6) ← deserPairs count r5
  some (⟨id, host, port, api, meta⟩, r6)

/-- bincode decoding of an Option of CacheEntry. -/
def deserOptEntry (l : List Nat) : Option (Option CacheEntry × List Nat) := do
  let (tag, r) ← readBytes 1 l
  match tag with
  | [0] => some (none, r)
  | [1] => do
    let (v, r') ← deserStr r
    some (some ⟨v⟩, r')
  | _ => none

/-- bincode decoding of a ClusterMessage by variant index. -/
def deserMsg (l : List Nat) : Option (ClusterMessage × List Nat) := do
  let (tag, r) ← deserU32 l
  match tag with
  | 0 => some (.ping, r)
  | 1 => some (.pong, r)
  | 2 => do
    let (k, r') ← deserStr r
    some (.fetchRequest k, r')
  | 3 => do
    let (k, r') ← deserStr r
    let (v, r'') ← deserOptEntry r'
    some (.fetchResponse k v, r'')
  | 4 => do
    let (k, r') ← deserStr r
    let (v, r'') ← deserStr r'
    some (.keyUpdated k ⟨v⟩, r'')
  | 5 => do
    let (k, r') ← deserStr r
    some (.keyInvalidated k, r')
  | _ => none

/- ### Message processor (start_message_processor, src/src/cluster.rs 264-360) -/

/-- The externally visible effect of the message processor on one inbound
message.  The processor's closure captures nodes, hash_ring and local_node
but has no access to the cache store: no cache_accessor is in scope. -/
inductive ProcEffect where
  | noop
  | sendFetchResponse (target : Option ((Nat × Nat × Nat × Nat) × Nat))
      (msg : ClusterMessage)
deriving DecidableEq, Repr

/-- Model of the processor's match on one (sender, message) pair
(src/src/cluster.rs lines 278-355).  Ping, Pong, FetchResponse, KeyUpdated
and KeyInvalidated only log.  FetchRequest spawns a task that connects to
sender.addr() and writes back a framed FetchResponse whose value is the
literal None (lines 311-314), never consulting any cache. -/
def processorStep (sender : Node) : ClusterMessage → ProcEffect
  | .fetchRequest key =>
    .sendFetchResponse (nodeAddr sender) (.fetchResponse key none)
  | _ => .noop

/- ### Direct-fetch text protocol, server side (listener lines 431-455) -/

/-- Whitespace as trimmed by str::trim (the ASCII fragment; the keys in
play are ASCII). -/
def isWsChar (c : Char) : Bool :=
  c = ' ' ∨ c = '\t' ∨ c = '\n' ∨ c = '\r'

/-- Trim leading and trailing whitespace from a character list. -/
def trimChars (l : List Char) : List Char :=
  ((l.dropWhile isWsChar).reverse.dropWhile isWsChar).reverse

/-- Model of str::trim. -/
def strTrim (s : String) : String :=
  String.mk (trimChars s.data)

/-- Model of str::starts_with. -/
def strStartsWith (s pre : String) : Bool :=
  pre.data.isPrefixOf s.data

/-- Model of str::strip_prefix for the first n characters already known to
match: drop n characters. -/
def strDrop (s : String) (n : Nat) : String :=
  String.mk (s.data.drop n)

/-- Model of the direct-fetch branch of the connection handler: the bytes
after the "GET:" marker are decoded lossily and trimmed; the response is a
fabricated "FOUND:value_for_" ++ key when the key starts with "test" and
"NOT_FOUND" otherwise — the local cache store is never consulted
(src/src/cluster.rs lines 433-443). -/
def directFetchResponse (payload : List Nat) : String :=
  let key := strTrim (utf8Lossy payload)
  if strStartsWith key "test" then "FOUND:value_for_" ++ key else "NOT_FOUND"

/-- Model of the client-side parse of a direct-fetch response
(direct_fetch_from_node, src/src/cluster_cache.rs lines 228-240): strip a
"FOUND:" marker, treat "NOT_FOUND" or anything else as absence. -/
def directFetchParse (resp : String) : Option String :=
  if strStartsWith resp "FOUND:" then some (strDrop resp 6) else none

/- ### Connection handler (start_message_listener, src/src/cluster.rs 418-548) -/

/-- What one inbound connection results in. -/
inductive ConnResult where
  | readError
  | directFetch (resp : List Nat)
  | handshake (registered : Node) (reply : List Nat)
  | dispatched (msg : ClusterMessage) (ack : List Nat)
  | deserError
deriving DecidableEq, Repr

/-- Model of the per-connection task of the listener on the finite byte
stream a connection delivers.  The handler first reads up to 64 bytes into
small_buf for protocol detection (modelled as the first min 64 bytes of
the stream).  If they start with "GET:" it answers the text protocol.
Otherwise it reads a 4-byte length and that many payload bytes from the
stream — the bytes already consumed into small_buf are dropped: the
full_data vector built from them on line 459 is never used — and then
trial-decodes the payload as a Node (handshake: reply with the framed
local node and register the peer) or else as a ClusterMessage (dispatch
and acknowledge with the single byte 1). -/
def handleConn (localN : Node) (stream : List Nat) : ConnResult :=
  let n := min 64 stream.length
  let buf := stream.take n
  if 4 < n ∧ buf.take 4 = strBytes "GET:" then
    .directFetch (strBytes (directFetchResponse (buf.drop 4)))
  else
    let rest := stream.drop n
    match readBytes 4 rest with
    | none => .readError
    | some (lenB, r1) =>
      let len :=
        match lenB with
        | [b0, b1, b2, b3] => u32beVal b0 b1 b2 b3
        | _ => 0
      match readBytes len r1 with
      | none => .readError
      | some (data, _) =>
        match deserNode data with
        | some (node, _) => .handshake node (frame (serNode localN))
        | none =>
          match deserMsg data with
          | some (msg, _) => .dispatched msg [1]
          | none => .deserError

/- ### Consistent-hash ring

Modelled from the spec: the ring itself is the external hashring crate,
which is not part of this repository.  Spec section 4.1: placement applies
a hash to positions; get(key) finds the nearest position clockwise from
hash(key); add and remove adjust only the node's own positions.  The model
mirrors the crate's structure — a vector of (position, node) entries kept
sorted by position, add inserting at the sorted position, remove deleting
one entry carrying the node's position, get taking the first entry at or
after the key's position and wrapping to the front — parametrized by the
hash builder hb applied to the streams written by the Hash impls. -/

/-- One ring entry: a position (the node's hash) and the node stored there. -/
structure RingEntry where
  key : Nat
  node : Node
deriving DecidableEq, Repr

/-- Insert an entry into a position-sorted list, after any entries with the
same position (push followed by a stable sort). -/
def sortedInsert (x : RingEntry) : List RingEntry → List RingEntry
  | [] => [x]
  | e :: r => if e.key ≤ x.key then e :: sortedInsert x r else x :: e :: r

/-- Remove the first entry at a given position, if any (remove looks the
position up and deletes that single entry). -/
def eraseFirstKey (k : Nat) : List RingEntry → List RingEntry
  | [] => []
  | e :: r => if e.key = k then r else e :: eraseFirstKey k r

/-- Ring add: insert the node at its hash position. -/
def ringAdd (hb : List Nat → Nat) (n : Node) (r : List RingEntry) :
    List RingEntry :=
  sortedInsert ⟨nodeRingHash hb n, n⟩ r

/-- Ring remove: delete one entry at the node's hash position. -/
def ringRemove (hb : List Nat → Nat) (n : Node) (r : List RingEntry) :
    List RingEntry :=
  eraseFirstKey (nodeRingHash hb n) r

/-- Ring get: none on an empty ring; otherwise the first entry at or after
the key's position, wrapping to the front entry. -/
def ringGet (hb : List Nat → Nat) (key : String) (r : List RingEntry) :
    Option Node :=
  match r with
  | [] => none
  | e0 :: _ =>
    match r.find? (fun e => decide (keyRingHash hb key ≤ e.key)) with
    | some e => some e.node
    | none => some e0.node

/- ### Cluster membership state (FastbuCluster, src/src/cluster.rs 213-794) -/

/-- The ring and node-registry state of a FastbuCluster. -/
structure ClusterState where
  ring : List RingEntry
  registry : List (String × Node)
deriving DecidableEq, Repr

/-- Model of FastbuCluster::new (src/src/cluster.rs lines 236-254): the
hash ring is created with just the local node added; the nodes registry
starts empty. -/
def newCluster (hb : List Nat → Nat) (localN : Node) : ClusterState :=
  { ring := ringAdd hb localN [], registry := [] }

/-- Model of the registry mutation inside initialize (src/src/cluster.rs
lines 570-574): the local node is inserted into the nodes registry; the
ring is not touched there. -/
def initStep (localN : Node) (s : ClusterState) : ClusterState :=
  { s with registry := mapInsert localN.id localN s.registry }

/-- Model of handle_node_joined (src/src/cluster.rs lines 759-775): the
node is added to the ring and inserted into the registry. -/
def joinStep (hb : List Nat → Nat) (n : Node) (s : ClusterState) :
    ClusterState :=
  { ring := ringAdd hb n s.ring, registry := mapInsert n.id n s.registry }

/-- Model of the handshake-registration block of the connection handler
(src/src/cluster.rs lines 498-505): the peer node is added to the ring and
inserted into the registry, together. -/
def handshakeStep (hb : List Nat → Nat) (n : Node) (s : ClusterState) :
    ClusterState :=
  { ring := ringAdd hb n s.ring, registry := mapInsert n.id n s.registry }

/-- Model of handle_node_left (src/src/cluster.rs lines 777-793): the node
is removed from the ring and from the registry. -/
def leftStep (hb : List Nat → Nat) (n : Node) (s : ClusterState) :
    ClusterState :=
  { ring := ringRemove hb n s.ring, registry := mapRemove n.id s.registry }

/-- One membership mutation, as the unguarded operations of the source:
initialize's registry insertion, handle_node_joined, handle_node_left and
the listener's handshake registration. -/
inductive ClusterOp (hb : List Nat → Nat) (localN : Node) :
    ClusterState → ClusterState → Prop where
  | init (s) : ClusterOp hb localN s (initStep localN s)
  | joined (n s) : ClusterOp hb localN s (joinStep hb n s)
  | left (n s) : ClusterOp hb localN s (leftStep hb n s)
  | handshake (n s) : ClusterOp hb localN s (handshakeStep hb n s)

/-- Reachability of cluster states from construction. -/
def ClusterReachable (hb : List Nat → Nat) (localN : Node)
    (s : ClusterState) : Prop :=
  Relation.ReflTransGen (ClusterOp hb localN) (newCluster hb localN) s

/-- Guarded membership mutation, used for the amended membership
invariant: a node is only joined or handshake-registered while its ring
position and id are fresh, and only removed while it is the node its id is
registered to. -/
inductive GStep (hb : List Nat → Nat) : ClusterState → ClusterState → Prop where
  | joined (n s) : (∀ e ∈ s.ring, e.key ≠ nodeRingHash hb n) →
      mapLookup n.id s.registry = none → GStep hb s (joinStep hb n s)
  | handshake (n s) : (∀ e ∈ s.ring, e.key ≠ nodeRingHash hb n) →
      mapLookup n.id s.registry = none → GStep hb s (handshakeStep hb n s)
  | left (n s) : mapLookup n.id s.registry = some n →
      GStep hb s (leftStep hb n s)

/-- Well-formedness of the ring/registry pair used by the amended
membership invariant: every ring entry sits at its node's hash position,
ring positions are distinct, every ring node is registered under its id,
and every registry binding is keyed by its node's id and backed by a ring
entry. -/
def RingWf (hb : List Nat → Nat) (s : ClusterState) : Prop :=
  (∀ e ∈ s.ring, e.key = nodeRingHash hb e.node) ∧
  (s.ring.map RingEntry.key).Nodup ∧
  (∀ e ∈ s.ring, mapLookup e.node.id s.registry = some e.node) ∧
  (∀ p ∈ s.registry, p.2.id = p.1 ∧ ∃ e ∈ s.ring, e.node = p.2)

/- ### Cluster-aware cache routing (src/src/cluster_cache.rs) -/

/-- State of a ClusterCache: the local cache store plus the cluster's ring
and registry and the configured local node. -/
structure CCState where
  cache : CacheState
  ring : List RingEntry
  registry : List (String × Node)
  localNode : Node
deriving Repr

/-- Model of ClusterCache::insert (src/src/cluster_cache.rs lines 34-106).
The owner is resolved on the ring; if it is the local node the entry is
stored locally and a KeyUpdated broadcast is sent to every other known
node with all failures ignored (no state effect); if it is remote, a
KeyUpdated message is sent to it — sendOk gives the outcome of
send_message per target node — and on send failure the entry is stored
locally as fallback; with no owner the entry is stored locally.  persistOk
is the outcome of local disk persistence.  Returns whether insert returns
Ok, and the new state. -/
def ccInsert (hb : List Nat → Nat) (sendOk : Node → Bool) (persistOk : Bool)
    (st : CCState) (key value : String) : Bool × CCState :=
  match ringGet hb key st.ring with
  | some node =>
    if node.id = st.localNode.id then
      let (ok, c') := fastbuInsert persistOk key value st.cache
      (ok, { st with cache := c' })
    else
      if sendOk node then (true, st)
      else
        let (ok, c') := fastbuInsert persistOk key value st.cache
        (ok, { st with cache := c' })
  | none =>
    let (ok, c') := fastbuInsert persistOk key value st.cache
    (ok, { st with cache := c' })

/-- Model of ClusterCache::get (src/src/cluster_cache.rs lines 111-181).
Local or unresolved owners read the local store.  For a remote owner a
FetchRequest is sent; if the send succeeds the local store is checked
first and otherwise the parsed outcome of the direct text-protocol fetch
(fetchResp, the response string if one was read) is returned; if the send
fails the local store is the fallback. -/
def ccGet (hb : List Nat → Nat) (sendOk : Node → Bool)
    (fetchResp : Option String) (st : CCState) (key : String) :
    Option String :=
  match ringGet hb key st.ring with
  | none => fastbuGet st.cache key
  | some node =>
    if node.id = st.localNode.id then fastbuGet st.cache key
    else if sendOk node then
      match fastbuGet st.cache key with
      | some v => some v
      | none => fetchResp.bind directFetchParse
    else fastbuGet st.cache key

/- ### Lemmas about the association-list map model -/

theorem mapLookup_filter_ne {α : Type} {k k' : String} (m : List (String × α))
    (h : k' ≠ k) :
    mapLookup k' (m.filter (fun p => p.1 ≠ k)) = mapLookup k' m := by
  induction m with
  | nil => rfl
  | cons p r ih =>
    by_cases hp : p.1 = k
    · have hps : p.1 ≠ k' := fun hh => h (hh.symm.trans hp)
      rw [show (p :: r).filter (fun q => q.1 ≠ k) = r.filter (fun q => q.1 ≠ k) from by
            simp [List.filter_cons, hp],
          ih, show mapLookup k' (p :: r) = if p.1 = k' then some p.2 else mapLookup k' r
            from rfl, if_neg hps]
    · rw [show (p :: r).filter (fun q => q.1 ≠ k) = p :: r.filter (fun q => q.1 ≠ k) from by
            simp [List.filter_cons, hp]]
      show (if p.1 = k' then some p.2 else mapLookup k' (r.filter (fun q => q.1 ≠ k))) = _
      rw [show mapLookup k' (p :: r) = if p.1 = k' then some p.2 else mapLookup k' r from rfl]
      by_cases hk' : p.1 = k'
      · rw [if_pos hk', if_pos hk']
      · rw [if_neg hk', if_neg hk', ih]

theorem mapLookup_insert_self {α : Type} (k : String) (v : α)
    (m : List (String × α)) : mapLookup k (mapInsert k v m) = some v := by
  simp [mapInsert, mapLookup]

theorem mapLookup_insert_ne {α : Type} {k k' : String} (v : α)
    (m : List (String × α)) (h : k' ≠ k) :
    mapLookup k' (mapInsert k v m) = mapLookup k' m := by
  show (if k = k' then some v else mapLookup k' (m.filter (fun p => p.1 ≠ k))) = _
  rw [if_neg (fun hh => h hh.symm), mapLookup_filter_ne m h]

theorem mapLookup_mem {α : Type} {k : String} {v : α}
    {m : List (String × α)} (h : mapLookup k m = some v) : (k, v) ∈ m := by
  induction m with
  | nil => simp [mapLookup] at h
  | cons p r ih =>
    rcases p with ⟨p1, p2⟩
    by_cases hp : p1 = k
    · subst hp
      simp [mapLookup] at h
      subst h
      exact List.mem_cons_self _ _
    · simp [mapLookup, hp] at h
      exact List.mem_cons_of_mem _ (ih h)

theorem mem_mapInsert_elim {α : Type} {p : String × α} {k : String} {v : α}
    {m : List (String × α)} (h : p ∈ mapInsert k v m) :
    p = (k, v) ∨ (p ∈ m ∧ p.1 ≠ k) := by
  simp only [mapInsert, List.mem_cons, List.mem_filter] at h
  rcases h with h | ⟨hm, hk⟩
  · exact Or.inl h
  · exact Or.inr ⟨hm, by simpa using hk⟩

theorem mem_mapRemove {α : Type} {p : String × α} {k : String}
    {m : List (String × α)} : p ∈ mapRemove k m ↔ p ∈ m ∧ p.1 ≠ k := by
  simp [mapRemove, List.mem_filter]

theorem mapLookup_remove_ne {α : Type} {k k' : String}
    (m : List (String × α)) (h : k' ≠ k) :
    mapLookup k' (mapRemove k m) = mapLookup k' m :=
  mapLookup_filter_ne m h

/- ### Lemmas about the ring model -/

theorem mem_sortedInsert (x a : RingEntry) (l : List RingEntry) :
    a ∈ sortedInsert x l ↔ a = x ∨ a ∈ l := by
  induction l with
  | nil => simp [sortedInsert]
  | cons e r ih =>
    by_cases he : e.key ≤ x.key
    · rw [show sortedInsert x (e :: r) = e :: sortedInsert x r from by
            simp [sortedInsert, he]]
      rw [List.mem_cons, ih, List.mem_cons]
      tauto
    · rw [show sortedInsert x (e :: r) = x :: e :: r from by simp [sortedInsert, he]]
      simp [List.mem_cons]

theorem sortedInsert_perm (x : RingEntry) (l : List RingEntry) :
    List.Perm (sortedInsert x l) (x :: l) := by
  induction l with
  | nil => exact List.Perm.refl _
  | cons e r ih =>
    by_cases he : e.key ≤ x.key
    · rw [show sortedInsert x (e :: r) = e :: sortedInsert x r from by
            simp [sortedInsert, he]]
      exact (ih.cons e).trans (List.Perm.swap x e r)
    · rw [show sortedInsert x (e :: r) = x :: e :: r from by simp [sortedInsert, he]]

theorem sortedInsert_eq_cons {x : RingEntry} {l : List RingEntry}
    (heq : ∀ e ∈ l, e.key = x.key → e = x) (hle : ∀ e ∈ l, x.key ≤ e.key) :
    sortedInsert x l = x :: l := by
  induction l with
  | nil => rfl
  | cons f r ih =>
    by_cases hf : f.key ≤ x.key
    · have hxf : x.key ≤ f.key := hle f (List.mem_cons_self f r)
      have hfx : f = x := heq f (List.mem_cons_self f r) (Nat.le_antisymm hf hxf)
      have ihr : sortedInsert x r = x :: r :=
        ih (fun e he hk => heq e (List.mem_cons_of_mem f he) hk)
          (fun e he => hle e (List.mem_cons_of_mem f he))
      rw [show sortedInsert x (f :: r) = f :: sortedInsert x r from by
            simp [sortedInsert, hf]]
      rw [ihr, hfx]
    · rw [show sortedInsert x (f :: r) = x :: f :: r from by simp [sortedInsert, hf]]

theorem eraseFirstKey_sortedInsert {x : RingEntry} {l : List RingEntry}
    (hsort : l.Pairwise (fun a b => a.key ≤ b.key))
    (heq : ∀ e ∈ l, e.key = x.key → e = x) :
    eraseFirstKey x.key (sortedInsert x l) = l := by
  induction l with
  | nil => simp [sortedInsert, eraseFirstKey]
  | cons f r ih =>
    by_cases hf : f.key ≤ x.key
    · rw [show sortedInsert x (f :: r) = f :: sortedInsert x r from by
            simp [sortedInsert, hf]]
      by_cases hfk : f.key = x.key
      · have hfx : f = x := heq f (List.mem_cons_self f r) hfk
        have hr : sortedInsert x r = x :: r :=
          sortedInsert_eq_cons
            (fun e he hk => heq e (List.mem_cons_of_mem f he) hk)
            (fun e he => hfk ▸ List.rel_of_pairwise_cons hsort he)
        rw [show eraseFirstKey x.key (f :: sortedInsert x r) =
              if f.key = x.key then sortedInsert x r else
                f :: eraseFirstKey x.key (sortedInsert x r) from rfl,
            if_pos hfk, hr, hfx]
      · have ihr := ih (List.Pairwise.sublist (List.sublist_cons_self f r) hsort)
          (fun e he hk => heq e (List.mem_cons_of_mem f he) hk)
        rw [show eraseFirstKey x.key (f :: sortedInsert x r) =
              if f.key = x.key then sortedInsert x r else
                f :: eraseFirstKey x.key (sortedInsert x r) from rfl,
            if_neg hfk, ihr]
    · rw [show sortedInsert x (f :: r) = x :: f :: r from by simp [sortedInsert, hf]]
      rw [show eraseFirstKey x.key (x :: f :: r) =
            if x.key = x.key then f :: r else x :: eraseFirstKey x.key (f :: r) from rfl,
          if_pos rfl]

theorem eraseFirstKey_sublist (k : Nat) (l : List RingEntry) :
    List.Sublist (eraseFirstKey k l) l := by
  induction l with
  | nil => exact List.Sublist.refl []
  | cons e r ih =>
    by_cases he : e.key = k
    · rw [show eraseFirstKey k (e :: r) =
            if e.key = k then r else e :: eraseFirstKey k r from rfl, if_pos he]
      exact List.sublist_cons_self e r
    · rw [show eraseFirstKey k (e :: r) =
            if e.key = k then r else e :: eraseFirstKey k r from rfl, if_neg he]
      exact ih.cons₂ e

theorem mem_eraseFirstKey {k : Nat} {l : List RingEntry} {e₀ : RingEntry}
    (hnodup : (l.map RingEntry.key).Nodup) (hmem : e₀ ∈ l)
    (hkey : e₀.key = k) (a : RingEntry) :
    a ∈ eraseFirstKey k l ↔ a ∈ l ∧ a ≠ e₀ := by
  induction l with
  | nil => cases hmem
  | cons f r ih =>
    rw [List.map_cons, List.nodup_cons] at hnodup
    by_cases hf : f.key = k
    · have hfe : e₀ = f := by
        rcases List.mem_cons.mp hmem with he | he
        · exact he
        · have h1 : e₀.key ∈ r.map RingEntry.key := List.mem_map_of_mem RingEntry.key he
          rw [hkey, ← hf] at h1
          exact absurd h1 hnodup.1
      rw [show eraseFirstKey k (f :: r) =
            if f.key = k then r else f :: eraseFirstKey k r from rfl, if_pos hf]
      constructor
      · intro ha
        refine ⟨List.mem_cons_of_mem f ha, fun hae => ?_⟩
        have h1 : a.key ∈ r.map RingEntry.key := List.mem_map_of_mem RingEntry.key ha
        rw [hae, hfe] at h1
        exact absurd h1 hnodup.1
      · rintro ⟨hal, hane⟩
        rcases List.mem_cons.mp hal with h1 | h1
        · exact absurd (h1.trans hfe.symm) hane
        · exact h1
    · have hmem' : e₀ ∈ r := by
        rcases List.mem_cons.mp hmem with he | he
        · refine absurd ?_ hf
          rw [← he]
          exact hkey
        · exact he
      have hfe : f ≠ e₀ := by
        intro hh
        rw [hh] at hf
        exact hf hkey
      rw [show eraseFirstKey k (f :: r) =
            if f.key = k then r else f :: eraseFirstKey k r from rfl, if_neg hf]
      rw [List.mem_cons, List.mem_cons, ih hnodup.2 hmem']
      constructor
      · rintro (h1 | ⟨h1, h2⟩)
        · refine ⟨Or.inl h1, fun hae => ?_⟩
          rw [h1] at hae
          exact hfe hae
        · exact ⟨Or.inr h1, h2⟩
      · rintro ⟨h1 | h1, hane⟩
        · exact Or.inl h1
        · exact Or.inr ⟨h1, hane⟩

theorem ringGet_all_local {hb : List Nat → Nat} {r : List RingEntry}
    {L : Node} (hne : r ≠ []) (hall : ∀ e ∈ r, e.node = L) (key : String) :
    ringGet hb key r = some L := by
  cases r with
  | nil => exact absurd rfl hne
  | cons e0 rest =>
    show (match (e0 :: rest).find? (fun e => decide (keyRingHash hb key ≤ e.key)) with
      | some e => some e.node
      | none => some e0.node) = some L
    cases hfind : (e0 :: rest).find? (fun e => decide (keyRingHash hb key ≤ e.key)) with
    | none => simp [hall e0 (List.mem_cons_self e0 rest)]
    | some e =>
      have hmem := List.mem_of_find?_eq_some hfind
      simp [hall e hmem]

/- ### Lemmas about the local cache store model -/

theorem fastbuGet_insert_self (ok : Bool) (k v : String) (st : CacheState) :
    fastbuGet (fastbuInsert ok k v st).2 k = some v := by
  simp [fastbuInsert, fastbuGet, mapLookup_insert_self]

/- ### Preservation of the membership well-formedness invariant -/

theorem ringWf_join {hb : List Nat → Nat} {s : ClusterState} {n : Node}
    (hwf : RingWf hb s) (hfresh : ∀ e ∈ s.ring, e.key ≠ nodeRingHash hb n)
    (hreg : mapLookup n.id s.registry = none) :
    RingWf hb (joinStep hb n s) := by
  obtain ⟨h1, h2, h3, h4⟩ := hwf
  refine ⟨?_, ?_, ?_, ?_⟩
  · intro e he
    rcases (mem_sortedInsert ⟨nodeRingHash hb n, n⟩ e s.ring).mp he with rfl | he'
    · rfl
    · exact h1 e he'
  · have hperm : List.Perm ((joinStep hb n s).ring.map RingEntry.key)
        (nodeRingHash hb n :: s.ring.map RingEntry.key) :=
      (sortedInsert_perm ⟨nodeRingHash hb n, n⟩ s.ring).map RingEntry.key
    refine hperm.nodup_iff.mpr ?_
    rw [List.nodup_cons]
    refine ⟨?_, h2⟩
    intro hmemk
    rcases List.mem_map.mp hmemk with ⟨e, he, hk⟩
    exact hfresh e he hk
  · intro e he
    rcases (mem_sortedInsert ⟨nodeRingHash hb n, n⟩ e s.ring).mp he with rfl | he'
    · exact mapLookup_insert_self n.id n s.registry
    · by_cases hid : e.node.id = n.id
      · exfalso
        have h3e := h3 e he'
        rw [hid, hreg] at h3e
        cases h3e
      · show mapLookup e.node.id (mapInsert n.id n s.registry) = some e.node
        rw [mapLookup_insert_ne n s.registry hid]
        exact h3 e he'
  · intro p hp
    rcases mem_mapInsert_elim hp with rfl | ⟨hpm, _⟩
    · exact ⟨rfl, ⟨nodeRingHash hb n, n⟩,
        (mem_sortedInsert _ _ s.ring).mpr (Or.inl rfl), rfl⟩
    · obtain ⟨hpid, e, he, hen⟩ := h4 p hpm
      exact ⟨hpid, e, (mem_sortedInsert _ e s.ring).mpr (Or.inr he), hen⟩

theorem ringWf_left {hb : List Nat → Nat} {s : ClusterState} {n : Node}
    (hwf : RingWf hb s) (hreg : mapLookup n.id s.registry = some n) :
    RingWf hb (leftStep hb n s) := by
  obtain ⟨h1, h2, h3, h4⟩ := hwf
  have hpm : (n.id, n) ∈ s.registry := mapLookup_mem hreg
  obtain ⟨-, e₀, he₀, he₀n⟩ := h4 (n.id, n) hpm
  have he₀k : e₀.key = nodeRingHash hb n := by rw [h1 e₀ he₀, he₀n]
  have hmem := mem_eraseFirstKey h2 he₀ he₀k
  refine ⟨?_, ?_, ?_, ?_⟩
  · intro e he
    exact h1 e ((hmem e).mp he).1
  · exact List.Nodup.sublist
      ((eraseFirstKey_sublist (nodeRingHash hb n) s.ring).map RingEntry.key) h2
  · intro e he
    obtain ⟨he', hne⟩ := (hmem e).mp he
    have hidne : e.node.id ≠ n.id := by
      intro hh
      have h3e := h3 e he'
      rw [hh, hreg] at h3e
      have hen : e.node = n := Option.some.inj h3e.symm
      have hek : e.key = e₀.key := by
        rw [h1 e he', hen, he₀k]
      exact hne (List.inj_on_of_nodup_map h2 he' he₀ hek)
    show mapLookup e.node.id (mapRemove n.id s.registry) = some e.node
    rw [mapLookup_remove_ne s.registry hidne]
    exact h3 e he'
  · intro p hp
    obtain ⟨hpm', hpne⟩ := mem_mapRemove.mp hp
    obtain ⟨hpid, e, he, hen⟩ := h4 p hpm'
    refine ⟨hpid, e, (hmem e).mpr ⟨he, ?_⟩, hen⟩
    intro hee
    apply hpne
    rw [← hpid, ← hen, hee, he₀n]

theorem ringWf_postInit (hb : List Nat → Nat) (L : Node) :
    RingWf hb (initStep L (newCluster hb L)) := by
  refine ⟨?_, ?_, ?_, ?_⟩
  · intro e he
    rcases (mem_sortedInsert ⟨nodeRingHash hb L, L⟩ e []).mp he with rfl | he'
    · rfl
    · cases he'
  · exact List.nodup_singleton _
  · intro e he
    rcases (mem_sortedInsert ⟨nodeRingHash hb L, L⟩ e []).mp he with rfl | he'
    · exact mapLookup_insert_self L.id L []
    · cases he'
  · intro p hp
    rcases mem_mapInsert_elim hp with rfl | ⟨hpm, _⟩
    · exact ⟨rfl, ⟨nodeRingHash hb L, L⟩,
        (mem_sortedInsert _ _ []).mpr (Or.inl rfl), rfl⟩
    · cases hpm

theorem gstep_wf {hb : List Nat → Nat} {s s' : ClusterState}
    (hwf : RingWf hb s) (h : GStep hb s s') : RingWf hb s' := by
  cases h with
  | joined n s hfresh hreg => exact ringWf_join hwf hfresh hreg
  | handshake n s hfresh hreg => exact ringWf_join hwf hfresh hreg
  | left n s hreg => exact ringWf_left hwf hreg

theorem reach_wf {hb : List Nat → Nat} {L : Node} {s : ClusterState}
    (h : Relation.ReflTransGen (GStep hb) (initStep L (newCluster hb L)) s) :
    RingWf hb s := by
  induction h with
  | refl => exact ringWf_postInit hb L
  | tail _ hstep ih => exact gstep_wf ih hstep

theorem ringWf_covariant {hb : List Nat → Nat} {s : ClusterState}
    (hwf : RingWf hb s) (id : String) :
    (mapLookup id s.registry).isSome ↔ ∃ e ∈ s.ring, e.node.id = id := by
  obtain ⟨h1, h2, h3, h4⟩ := hwf
  constructor
  · intro hs
    obtain ⟨v, hv⟩ := Option.isSome_iff_exists.mp hs
    obtain ⟨hpid, e, he, hen⟩ := h4 (id, v) (mapLookup_mem hv)
    refine ⟨e, he, ?_⟩
    rw [hen]
    exact hpid
  · rintro ⟨e, he, rfl⟩
    rw [h3 e he]
    rfl

theorem ccGet_local (hb : List Nat → Nat) (sendOk : Node → Bool)
    (fetchResp : Option String) (st : CCState) (key : String)
    (hget : ringGet hb key st.ring = some st.localNode) :
    ccGet hb sendOk fetchResp st key = fastbuGet st.cache key := by
  unfold ccGet
  rw [hget]
  simp

/- ### Claim theorems -/

/-- C1: false of the code — the Message Processor does not reply with the
entry actually held for the key.  Even when the local cache store holds
the requested key, the FetchRequest branch replies with a FetchResponse
whose value field is the literal None (the branch is a stub that never
consults any cache store), which differs from a response carrying the
held entry. -/
theorem c1_fetch_reply_ignores_local_store :
    fastbuGet { mem := [("k", ⟨"v"⟩)], disk := [] } "k" = some "v" ∧
    processorStep ⟨"sender", "127.0.0.1", 7000, 3000, []⟩ (.fetchRequest "k") =
      .sendFetchResponse (some ((127, 0, 0, 1), 7000)) (.fetchResponse "k" none) ∧
    (ClusterMessage.fetchResponse "k" none ≠
      ClusterMessage.fetchResponse "k" (some ⟨"v"⟩)) := by decide

/-- C2: false of the code — the direct-fetch text protocol does not answer
from the local cache store.  A key the store holds is answered NOT_FOUND,
and a key starting with "test" that the store does not hold is answered
with a fabricated FOUND:value_for_ value. -/
theorem c2_direct_fetch_ignores_local_store :
    fastbuGet { mem := [("mykey", ⟨"v"⟩)], disk := [] } "mykey" = some "v" ∧
    handleConn ⟨"local", "127.0.0.1", 7946, 3031, []⟩ (strBytes "GET:mykey") =
      .directFetch (strBytes "NOT_FOUND") ∧
    fastbuGet { mem := [("mykey", ⟨"v"⟩)], disk := [] } "testkey" = none ∧
    handleConn ⟨"local", "127.0.0.1", 7946, 3031, []⟩ (strBytes "GET:testkey") =
      .directFetch (strBytes "FOUND:value_for_testkey") := by decide

/-- C3: false of the code — the handshake round-trip never decodes the
sent Node.  The payload itself is decodable (first conjunct), but the
connection handler consumes the whole frame into its 64-byte detection
buffer, discards those bytes, and then fails reading a length prefix from
the already-drained stream, so no Node is ever produced. -/
theorem c3_handshake_roundtrip_broken :
    deserNode (serNode ⟨"n1", "127.0.0.1", 7000, 3000, []⟩) =
      some (⟨"n1", "127.0.0.1", 7000, 3000, []⟩, []) ∧
    handleConn ⟨"local", "127.0.0.1", 7946, 3031, []⟩
      (frame (serNode ⟨"n1", "127.0.0.1", 7000, 3000, []⟩)) = .readError := by decide

/-- C4 counterexample: two Nodes agreeing on id, host, port and api_port
but with different metadata maps are not treated as the same node by
equality — the derived PartialEq compares metadata — even though their
hash streams coincide. -/
theorem c4_metadata_breaks_equality :
    nodeEqb ⟨"a", "127.0.0.1", 7946, 3031, []⟩
      ⟨"a", "127.0.0.1", 7946, 3031, [("dc", "eu")]⟩ = false ∧
    hashInput ⟨"a", "127.0.0.1", 7946, 3031, []⟩ =
      hashInput ⟨"a", "127.0.0.1", 7946, 3031, [("dc", "eu")]⟩ := by decide

/-- C4 amended: the hash used for ring placement is a function of
(id, host, port, api_port) only — any hash builder assigns equal ring
positions to Nodes agreeing on those four fields — but equality is the
derived structural equality, which additionally compares the metadata
maps. -/
theorem c4_amended_hash_four_fields_eq_includes_metadata (n1 n2 : Node)
    (hid : n1.id = n2.id) (hhost : n1.host = n2.host)
    (hport : n1.port = n2.port) (hapi : n1.api_port = n2.api_port) :
    (∀ hb : List Nat → Nat, nodeRingHash hb n1 = nodeRingHash hb n2) ∧
    (nodeEqb n1 n2 = true ↔ metaEqb n1.metadata n2.metadata = true) := by
  constructor
  · intro hb
    unfold nodeRingHash hashInput strHashInput
    rw [hid, hhost, hport, hapi]
  · simp [nodeEqb, hid, hhost, hport, hapi]

/-- Witness for the amended C4 at concrete nodes differing in metadata. -/
theorem c4_amended_witness :
    nodeRingHash (fun l : List Nat => l.length) ⟨"a", "h", 1, 2, []⟩ =
      nodeRingHash (fun l : List Nat => l.length) ⟨"a", "h", 1, 2, [("dc", "eu")]⟩ ∧
    (nodeEqb ⟨"a", "h", 1, 2, []⟩ ⟨"a", "h", 1, 2, [("dc", "eu")]⟩ = true ↔
      metaEqb [] [("dc", "eu")] = true) :=
  ⟨(c4_amended_hash_four_fields_eq_includes_metadata ⟨"a", "h", 1, 2, []⟩
      ⟨"a", "h", 1, 2, [("dc", "eu")]⟩ rfl rfl rfl rfl).1 _,
   (c4_amended_hash_four_fields_eq_includes_metadata ⟨"a", "h", 1, 2, []⟩
      ⟨"a", "h", 1, 2, [("dc", "eu")]⟩ rfl rfl rfl rfl).2⟩

/-- C5: when the ring assigns the key to a remote owner and sending the
KeyUpdated message to it fails, insert stores the pair in the local cache
store and still returns success (given that local persistence itself
succeeds, which is the path the claim describes). -/
theorem c5_remote_send_failure_falls_back_local
    (hb : List Nat → Nat) (sendOk : Node → Bool) (st : CCState)
    (key value : String) (owner : Node)
    (howner : ringGet hb key st.ring = some owner)
    (hremote : owner.id ≠ st.localNode.id)
    (hfail : sendOk owner = false) :
    (ccInsert hb sendOk true st key value).1 = true ∧
    fastbuGet (ccInsert hb sendOk true st key value).2.cache key = some value := by
  have hred : ccInsert hb sendOk true st key value =
      (true, { st with cache := (fastbuInsert true key value st.cache).2 }) := by
    unfold ccInsert
    rw [howner]
    show (if owner.id = st.localNode.id then _ else _) = _
    rw [if_neg hremote, hfail]
    rfl
  rw [hred]
  exact ⟨rfl, fastbuGet_insert_self true key value st.cache⟩

/-- Witness for C5: a two-node ring whose owner for the key is remote, a
send that always fails, and successful local persistence. -/
theorem c5_witness :
    (ccInsert (fun l : List Nat => l.length) (fun _ => false) true
      ⟨⟨[], []⟩,
       [⟨5, ⟨"remote", "127.0.0.2", 7947, 3032, []⟩⟩,
        ⟨999999, ⟨"local", "127.0.0.1", 7946, 3031, []⟩⟩],
       [], ⟨"local", "127.0.0.1", 7946, 3031, []⟩⟩ "k" "v").1 = true ∧
    fastbuGet (ccInsert (fun l : List Nat => l.length) (fun _ => false) true
      ⟨⟨[], []⟩,
       [⟨5, ⟨"remote", "127.0.0.2", 7947, 3032, []⟩⟩,
        ⟨999999, ⟨"local", "127.0.0.1", 7946, 3031, []⟩⟩],
       [], ⟨"local", "127.0.0.1", 7946, 3031, []⟩⟩ "k" "v").2.cache "k" =
      some "v" :=
  c5_remote_send_failure_falls_back_local _ _ _ _ _
    ⟨"remote", "127.0.0.2", 7947, 3032, []⟩ (by decide) (by decide) rfl

/-- C6: in a single-node cluster — every ring entry and every registry
binding is the local node — insert succeeds (with local persistence
succeeding) and a subsequent get returns the inserted value. -/
theorem c6_single_node_insert_then_get
    (hb : List Nat → Nat) (sendOk : Node → Bool) (fetchResp : Option String)
    (st : CCState) (key value : String)
    (hne : st.ring ≠ []) (hall : ∀ e ∈ st.ring, e.node = st.localNode)
    (hreg : ∀ p ∈ st.registry, p.2 = st.localNode) :
    (ccInsert hb sendOk true st key value).1 = true ∧
    ccGet hb sendOk fetchResp (ccInsert hb sendOk true st key value).2 key =
      some value := by
  have hget : ringGet hb key st.ring = some st.localNode :=
    ringGet_all_local hne hall key
  have hred : ccInsert hb sendOk true st key value =
      (true, { st with cache := (fastbuInsert true key value st.cache).2 }) := by
    unfold ccInsert
    rw [hget]
    show (if st.localNode.id = st.localNode.id then _ else _) = _
    rw [if_pos rfl]
    rfl
  refine ⟨by rw [hred], ?_⟩
  rw [hred]
  show ccGet hb sendOk fetchResp
      { cache := (fastbuInsert true key value st.cache).2, ring := st.ring,
        registry := st.registry, localNode := st.localNode } key = some value
  rw [ccGet_local hb sendOk fetchResp
      { cache := (fastbuInsert true key value st.cache).2, ring := st.ring,
        registry := st.registry, localNode := st.localNode } key hget]
  exact fastbuGet_insert_self true key value st.cache

/-- Witness for C6: the spec's own example on a concrete single-node
cluster state. -/
theorem c6_witness :
    (ccInsert (fun l : List Nat => l.length) (fun _ => true) true
      ⟨⟨[], []⟩, [⟨9, ⟨"local", "127.0.0.1", 7946, 3031, []⟩⟩],
       [("local", ⟨"local", "127.0.0.1", 7946, 3031, []⟩)],
       ⟨"local", "127.0.0.1", 7946, 3031, []⟩⟩
      "local-test-key" "local-test-value").1 = true ∧
    ccGet (fun l : List Nat => l.length) (fun _ => true) none
      (ccInsert (fun l : List Nat => l.length) (fun _ => true) true
        ⟨⟨[], []⟩, [⟨9, ⟨"local", "127.0.0.1", 7946, 3031, []⟩⟩],
         [("local", ⟨"local", "127.0.0.1", 7946, 3031, []⟩)],
         ⟨"local", "127.0.0.1", 7946, 3031, []⟩⟩
        "local-test-key" "local-test-value").2 "local-test-key" =
      some "local-test-value" :=
  c6_single_node_insert_then_get _ _ _ _ _ _ (by decide) (by decide) (by decide)

/-- C7 counterexample: the state produced by FastbuCluster::new is
reachable (it is the construction state itself) and already violates the
claimed covariance — the local node is in the hash ring but the node
registry is empty, so a node present in the ring is absent from the
registry, and construction mutated the ring without the registry. -/
theorem c7_new_state_ring_without_registry :
    ClusterReachable (fun l : List Nat => l.length)
      ⟨"local", "127.0.0.1", 7946, 3031, []⟩
      (newCluster (fun l : List Nat => l.length)
        ⟨"local", "127.0.0.1", 7946, 3031, []⟩) ∧
    (∃ e ∈ (newCluster (fun l : List Nat => l.length)
        ⟨"local", "127.0.0.1", 7946, 3031, []⟩).ring,
      e.node = (⟨"local", "127.0.0.1", 7946, 3031, []⟩ : Node)) ∧
    mapLookup "local"
      (newCluster (fun l : List Nat => l.length)
        ⟨"local", "127.0.0.1", 7946, 3031, []⟩).registry = none :=
  ⟨Relation.ReflTransGen.refl, by decide, rfl⟩

/-- C7 amended: at construction the ring already holds the local node
while the registry is empty; the registry gains the local node only at
initialize(), after which the local node is in both; and from the
post-initialize state, along any sequence of node-joined, handshake
registration and node-left events in which a joined node has a fresh id
and ring position and node-left is applied to a node registered under its
id, every reachable state satisfies the covariance: a node id has a
registry binding exactly when some ring entry carries it (each of those
events mutates ring and registry together). -/
theorem c7_amended_membership_covariance
    (hb : List Nat → Nat) (L : Node) (s : ClusterState)
    (hreach : Relation.ReflTransGen (GStep hb)
      (initStep L (newCluster hb L)) s) :
    ((∃ e ∈ (newCluster hb L).ring, e.node = L) ∧
      (newCluster hb L).registry = []) ∧
    (mapLookup L.id (initStep L (newCluster hb L)).registry = some L ∧
      ∃ e ∈ (initStep L (newCluster hb L)).ring, e.node = L) ∧
    (∀ id, (mapLookup id s.registry).isSome ↔
      ∃ e ∈ s.ring, e.node.id = id) := by
  refine ⟨⟨⟨⟨nodeRingHash hb L, L⟩, List.mem_cons_self _ _, rfl⟩, rfl⟩,
    ⟨mapLookup_insert_self L.id L [], ⟨⟨nodeRingHash hb L, L⟩,
      List.mem_cons_self _ _, rfl⟩⟩, ?_⟩
  intro id
  exact ringWf_covariant (reach_wf hreach) id

/-- Witness for the amended C7, at the post-initialize state of a
concrete node, checking the covariance at the local node's own id. -/
theorem c7_amended_witness :
    ((∃ e ∈ (newCluster (fun l : List Nat => l.length)
        ⟨"local", "127.0.0.1", 7946, 3031, []⟩).ring,
      e.node = (⟨"local", "127.0.0.1", 7946, 3031, []⟩ : Node)) ∧
      (newCluster (fun l : List Nat => l.length)
        ⟨"local", "127.0.0.1", 7946, 3031, []⟩).registry = []) ∧
    (mapLookup "local"
      (initStep ⟨"local", "127.0.0.1", 7946, 3031, []⟩
        (newCluster (fun l : List Nat => l.length)
          ⟨"local", "127.0.0.1", 7946, 3031, []⟩)).registry =
      some ⟨"local", "127.0.0.1", 7946, 3031, []⟩ ∧
      ∃ e ∈ (initStep ⟨"local", "127.0.0.1", 7946, 3031, []⟩
        (newCluster (fun l : List Nat => l.length)
          ⟨"local", "127.0.0.1", 7946, 3031, []⟩)).ring,
        e.node = (⟨"local", "127.0.0.1", 7946, 3031, []⟩ : Node)) ∧
    ((mapLookup "local"
      (initStep ⟨"local", "127.0.0.1", 7946, 3031, []⟩
        (newCluster (fun l : List Nat => l.length)
          ⟨"local", "127.0.0.1", 7946, 3031, []⟩)).registry).isSome ↔
      ∃ e ∈ (initStep ⟨"local", "127.0.0.1", 7946, 3031, []⟩
        (newCluster (fun l : List Nat => l.length)
          ⟨"local", "127.0.0.1", 7946, 3031, []⟩)).ring,
        e.node.id = "local") := by
  have h := c7_amended_membership_covariance (fun l : List Nat => l.length)
    ⟨"local", "127.0.0.1", 7946, 3031, []⟩ _ Relation.ReflTransGen.refl
  exact ⟨h.1, h.2.1, h.2.2 "local"⟩

/-- C8: adding a node to the ring and then removing it restores the
owner returned by ring.get for every key, provided the node's ring
position does not collide with a position of a different node already in
the ring (the ring state is position-sorted, as every state built by add
is). -/
theorem c8_join_then_leave_restores_get
    (hb : List Nat → Nat) (n : Node) (r : List RingEntry)
    (hsort : r.Pairwise (fun a b => a.key ≤ b.key))
    (hcoll : ∀ e ∈ r, e.key = nodeRingHash hb n → e.node = n) (key : String) :
    ringGet hb key (ringRemove hb n (ringAdd hb n r)) = ringGet hb key r := by
  have hrr : ringRemove hb n (ringAdd hb n r) = r := by
    unfold ringRemove ringAdd
    have hx : ∀ e ∈ r, e.key = (⟨nodeRingHash hb n, n⟩ : RingEntry).key →
        e = (⟨nodeRingHash hb n, n⟩ : RingEntry) := by
      intro e he hk
      have hn := hcoll e he hk
      cases e with
      | mk ek en =>
        simp only [RingEntry.mk.injEq]
        exact ⟨hk, hn⟩
    exact eraseFirstKey_sortedInsert hsort hx
  rw [hrr]

/-- Witness for C8 on a concrete two-entry ring and a fresh node. -/
theorem c8_witness :
    ringGet (fun l : List Nat => l.length) "x"
      (ringRemove (fun l : List Nat => l.length) ⟨"c", "h", 3, 3, []⟩
        (ringAdd (fun l : List Nat => l.length) ⟨"c", "h", 3, 3, []⟩
          [⟨1, ⟨"a", "h", 1, 1, []⟩⟩, ⟨3, ⟨"b", "h", 2, 2, []⟩⟩])) =
    ringGet (fun l : List Nat => l.length) "x"
      [⟨1, ⟨"a", "h", 1, 1, []⟩⟩, ⟨3, ⟨"b", "h", 2, 2, []⟩⟩] :=
  c8_join_then_leave_restores_get (fun l : List Nat => l.length)
    ⟨"c", "h", 3, 3, []⟩ _ (by decide) (by decide) "x"

/-- C9: Node::addr and Node::api_addr panic (the parse yields no address,
and the source unwraps it with expect) whenever the host field is not an
IP address literal — for example the hostname "localhost" — while an IP
literal host parses fine. -/
theorem c9_addr_panics_on_hostname :
    nodeAddr ⟨"n", "localhost", 8001, 3031, []⟩ = none ∧
    nodeApiAddr ⟨"n", "localhost", 8001, 3031, []⟩ = none ∧
    nodeAddr ⟨"n", "127.0.0.1", 8001, 3031, []⟩ =
      some ((127, 0, 0, 1), 8001) := by decide

/-- C10: FastbuCache::get consults only the in-memory map — its result is
independent of the disk store, it returns some v exactly when the
in-memory map holds v for the key, and a key that Storage::load could
return from disk is still invisible to get in a fresh process whose
in-memory map is empty. -/
theorem c10_get_consults_memory_only
    (mem disk disk' : List (String × CacheEntry)) (key : String) :
    fastbuGet { mem := mem, disk := disk } key =
      fastbuGet { mem := mem, disk := disk' } key ∧
    (∀ v, fastbuGet { mem := mem, disk := disk } key = some v ↔
      mapLookup key mem = some ⟨v⟩) ∧
    (∀ e, storageLoad disk key = some e →
      fastbuGet (freshCache disk) key = none) := by
  refine ⟨rfl, ?_, fun e _ => rfl⟩
  intro v
  show (mapLookup key mem).map (fun e => e.value) = some v ↔
    mapLookup key mem = some ⟨v⟩
  cases hl : mapLookup key mem with
  | none => simp
  | some e =>
    cases e with
    | mk ev => simp

/-- Witness for C10: a key persisted on disk but absent from memory is
loadable from storage yet invisible to get. -/
theorem c10_witness :
    storageLoad [("k", ⟨"v"⟩)] "k" = some ⟨"v"⟩ ∧
    fastbuGet (freshCache [("k", ⟨"v"⟩)]) "k" = none :=
  ⟨by decide,
   (c10_get_consults_memory_only [] [("k", ⟨"v"⟩)] [] "k").2.2 ⟨"v"⟩ (by decide)⟩

end Fastbu
